import Mathlib

/-!
Verification of the Daft partitioned execution runner specification.

The repository ships a tutorial notebook (`tutorials/text_to_image/using_cloud_with_ray.ipynb`)
that drives the engine: `DataFrame.read_parquet(...).limit(160).repartition(8)`, a `to_image`
UDF added with `with_column`, `to_pandas` materialization, and `daft.context.set_runner_ray`
backend configuration.  The engine itself (task compiler, scheduler, resource manager,
backends, materializer) is not part of the checked-in sources, so those components are
modelled from the specification; the `to_image` UDF is embedded directly from the notebook.

Rows are values of an arbitrary type; a cell that may be absent is an `Option`.
A `Partition` is an ordered list of rows; a `PartitionSet` is an ordered list of
partitions.  The row-major snapshot of a `PartitionSet` is the concatenation of its
partitions in index order.
-/

/-- A Partition is an immutable ordered sequence of rows. -/
abbrev Partition (α : Type) : Type := List α

/-- A PartitionSet is an ordered sequence of Partitions. -/
abbrev PartitionSet (α : Type) : Type := List (Partition α)

/-- Total row count of a PartitionSet: the sum of its partition row counts. -/
def totalRows (ps : PartitionSet α) : Nat :=
  (ps.map List.length).sum

/-- Row-major snapshot of a PartitionSet: its partitions concatenated in index order. -/
def snapshot (ps : PartitionSet α) : List α :=
  ps.flatten

/-- Modelled from the spec: the row-slicing half of `Repartition(n)`'s
concatenate-then-slice policy (the Task Compiler and Worker Executor for
Repartition are not in the checked-in sources).  `splitInto n rows` deals the
concatenated rows into exactly `n` contiguous chunks of approximately equal
size, deterministically: the first chunk takes `ceil(length / n)` rows and the
remainder is split into `n - 1` chunks recursively. -/
def splitInto : Nat → List α → List (List α)
  | 0, _ => []
  | n + 1, rows =>
      let c := (rows.length + n) / (n + 1)
      rows.take c :: splitInto n (rows.drop c)

/-- Modelled from the spec: `Repartition(n)` redistributes the rows of a
PartitionSet into `n` output partitions by concatenating all input rows in
partition order and slicing the result into `n` contiguous chunks. -/
def repartition (ps : PartitionSet α) (n : Nat) : PartitionSet α :=
  splitInto n (snapshot ps)

/-- Modelled from the spec: the Task Compiler for `Limit(k)` (not in the checked-in
sources).  Tasks are generated one partition at a time, in partition order; each task
truncates its partition to the remaining row budget, and generation stops as soon as
the cumulative row count across already-scheduled partitions reaches `k`.  The result
is the list of compiled tasks' output partitions: its length is the number of tasks
created. -/
def limitTasks : Nat → PartitionSet α → PartitionSet α
  | _, [] => []
  | 0, _ :: _ => []
  | k + 1, p :: rest =>
      if k + 1 ≤ p.length then [p.take (k + 1)]
      else p :: limitTasks (k + 1 - p.length) rest

/-- Modelled from the spec: the Worker Executor's per-row policy for one UDFApply
cell (the Worker Executor is not in the checked-in sources).  An absent input row is
never passed to the user function and propagates as an absent output; a present input
row is evaluated, and if the user function raises, the output for that row is the
absent marker. -/
def udfApplyRow (f : α → Except ε β) : Option α → Option β
  | none => none
  | some a =>
      match f a with
      | Except.ok b => some b
      | Except.error _ => none

/-- Modelled from the spec: UDFApply on one partition applies the per-row policy to
every row; per-row failures are absorbed, so the task itself always completes with a
full-length output partition. -/
def udfApply (f : α → Except ε β) (p : Partition (Option α)) : Partition (Option β) :=
  p.map (udfApplyRow f)

/-- Modelled from the spec: the same per-partition UDFApply execution, additionally
recording the list of inputs actually passed to the user function, in row order. -/
def udfApplyTrace (f : α → Except ε β) :
    List (Option α) → List (Option β) × List α
  | [] => ([], [])
  | none :: rest =>
      let r := udfApplyTrace f rest
      (none :: r.1, r.2)
  | some a :: rest =>
      let r := udfApplyTrace f rest
      (udfApplyRow f (some a) :: r.1, a :: r.2)

/-- The inputs UDFApply actually passes to the user function on a partition. -/
def udfCalls (f : α → Except ε β) (p : List (Option α)) : List α :=
  (udfApplyTrace f p).2

/-- Modelled from the spec: UDFApply over a whole PartitionSet compiles one task per
input partition, 1:1, each task applying the UDF to its partition. -/
def udfApplySet (f : α → Except ε β) (ps : PartitionSet (Option α)) :
    PartitionSet (Option β) :=
  ps.map (udfApply f)

/-- A demonstration UDF used by concrete witnesses: raises on inputs divisible
by 3, doubles the others. -/
def udfDemo : Nat → Except Unit Nat :=
  fun a => if a % 3 = 0 then Except.error () else Except.ok (a * 2)

/-- A demonstration partition used by concrete witnesses: mixes present and
absent cells, with a present cell on which `udfDemo` raises. -/
def partDemo : List (Option Nat) :=
  [some 1, none, some 3, some 4]

/-- Shallow embedding of the notebook's `to_image` UDF
(`tutorials/text_to_image/using_cloud_with_ray.ipynb`): `decode` models
`PIL.Image.open(io.BytesIO(b))` as an arbitrary fallible decoder.  The Python body
loops over `bytes_col`; for a non-`None` element it tries the decode, and the bare
`except:` catches any error and appends `None`; a `None` element appends `None`
directly.  The `Except` result type carries any exception the body would let
escape. -/
def to_image (decode : β → Except ε γ) :
    List (Option β) → Except ε (List (Option γ))
  | [] => Except.ok []
  | none :: rest =>
      (to_image decode rest).map (fun out => none :: out)
  | some b :: rest =>
      match decode b with
      | Except.ok im => (to_image decode rest).map (fun out => some im :: out)
      | Except.error _ => (to_image decode rest).map (fun out => none :: out)

/-- Backend kinds: the default single-process PyRunner, or the Ray cluster runner. -/
inductive BackendKind where
  | pyRunner
  | rayRunner
deriving DecidableEq

/-- Modelled from the spec: runner configuration consumed once at process start
(backend kind, optional cluster address, worker-pool size); `daft.context` is not in
the checked-in sources. -/
structure RunnerConfig where
  kind : BackendKind
  address : Option Nat
  poolSize : Nat
deriving DecidableEq

/-- Modelled from the spec: the engine's error kinds (§7). -/
inductive EngineError where
  | configError
  | resourceError
  | taskError
  | rowInvariantError
deriving DecidableEq

/-- Modelled from the spec: the process-wide Execution Context; `binding = none`
means the runner has not yet been configured or used. -/
structure ExecContext where
  binding : Option RunnerConfig
deriving DecidableEq

/-- Modelled from the spec: attempting to (re)configure the runner.  Before first
use the binding is set; afterwards any reconfiguration fails with ConfigError and
the existing binding is returned unchanged. -/
def trySetRunner (ctx : ExecContext) (cfg : RunnerConfig) :
    Option EngineError × ExecContext :=
  match ctx.binding with
  | none => (none, ExecContext.mk (some cfg))
  | some _ => (some EngineError.configError, ctx)

/-- Modelled from the spec: per-error-kind retry policy: TaskError is retried up to
a bound; ConfigError, ResourceError and RowInvariantError are never retried. -/
def isRetryable : EngineError → Bool
  | EngineError.taskError => true
  | _ => false

/-- Modelled from the spec: the Scheduler's retry loop for one task.  `exec k` is
the outcome of attempt number `k`; starting at attempt `k` with `fuel` retries left,
the first success is returned, and when every attempt fails the final attempt's
error is the task's outcome. -/
def runWithRetry (exec : Nat → Except ε π) : Nat → Nat → Except ε π
  | k, 0 => exec k
  | k, fuel + 1 =>
      match exec k with
      | Except.ok p => Except.ok p
      | Except.error _ => runWithRetry exec (k + 1) fuel

/-- Modelled from the spec: executing a task graph with retry bound `bound`.  Each
task is retried up to the bound; the first task to exhaust its retries aborts the
whole graph with that single error, and only a fully successful execution returns a
PartitionSet (never a partial one). -/
def runGraph (bound : Nat) : List (Nat → Except ε π) → Except ε (List π)
  | [] => Except.ok []
  | e :: rest =>
      match runWithRetry e 0 bound with
      | Except.error err => Except.error err
      | Except.ok p => (runGraph bound rest).map (fun out => p :: out)

/-- Whether a task attempt outcome is a success. -/
def exceptOk : Except ε π → Bool
  | Except.ok _ => true
  | Except.error _ => false

/-- Attempts `0 .. j-1` of `e` all fail. -/
def failBefore (e : Nat → Except ε π) (j : Nat) : Bool :=
  (List.range j).all (fun k => !(exceptOk (e k)))

/-- Modelled from the spec: Scheduler/Resource Manager state for a pool of
1-CPU workers (the Resource Manager is not in the checked-in sources): `free` is
the number of currently free CPU slots, `running` the number of tasks executing,
`pending` the number of tasks not yet started. -/
structure SchedState where
  free : Nat
  running : Nat
  pending : Nat
deriving DecidableEq

/-- Modelled from the spec: the scheduler's atomic transitions.  `grant` consumes
one free slot to dispatch one pending 1-CPU task; `release` returns the slot when a
running task completes.  A grant requires a currently free slot — no capacity is
borrowed. -/
inductive SchedStep : SchedState → SchedState → Prop
  | grant (f r q : Nat) :
      SchedStep (SchedState.mk (f + 1) r (q + 1)) (SchedState.mk f (r + 1) q)
  | release (f r q : Nat) :
      SchedStep (SchedState.mk f (r + 1) q) (SchedState.mk (f + 1) r q)

/-- Initial scheduler state: `cpus` free slots, nothing running, `tasks` pending. -/
def initSched (cpus tasks : Nat) : SchedState :=
  SchedState.mk cpus 0 tasks

/-- States reachable by any interleaving of scheduler transitions. -/
inductive SchedReach : SchedState → SchedState → Prop
  | refl (s : SchedState) : SchedReach s s
  | step (s t u : SchedState) : SchedReach s t → SchedStep t u → SchedReach s u

/-- Modelled from the spec: the Result Materializer (not in the checked-in sources).
Given the target partition count and the completed `(partition index, partition)`
pairs in completion order, it reassembles the PartitionSet by partition index, not by
completion time. -/
def materializeByIndex (n : Nat) (completed : List (Nat × Partition α)) :
    PartitionSet α :=
  (List.range n).map (fun i => (completed.lookup i).getD [])

/-- The completion stream of `parts`' tasks when they finish in the order given by
the index list `σ`. -/
def completionsOf (parts : PartitionSet α) (σ : List Nat) :
    List (Nat × Partition α) :=
  σ.map (fun i => (i, parts.getD i []))

/-- The materializer's output when `parts`' tasks complete in order `σ`. -/
def materializeWith (parts : PartitionSet α) (σ : List Nat) : PartitionSet α :=
  materializeByIndex parts.length (completionsOf parts σ)

/-- A node of the logical operation chain: Limit, Repartition, or UDFApply. -/
inductive Op (ρ : Type) where
  | limitOp (k : Nat)
  | repartitionOp (n : Nat)
  | udfOp (f : ρ → Except Unit ρ)

/-- Applying one operation to a PartitionSet: the per-operation semantics shared by
both backends. -/
def applyOp : Op ρ → PartitionSet (Option ρ) → PartitionSet (Option ρ)
  | Op.limitOp k, ps => limitTasks k ps
  | Op.repartitionOp n, ps => repartition ps n
  | Op.udfOp f, ps => udfApplySet f ps

/-- Modelled from the spec: the Local backend (PyRunner) runs each stage's tasks in
partition order, so results are produced already in index order. -/
def runLocal : List (Op ρ) → PartitionSet (Option ρ) → PartitionSet (Option ρ)
  | [], ps => ps
  | op :: ops, ps => runLocal ops (applyOp op ps)

/-- Modelled from the spec: the Cluster backend (RayRunner) dispatches each stage's
tasks concurrently; their completions arrive in the order given by that stage's entry
of `σs`, and the Materializer reassembles each stage's output by partition index.
With an exhausted schedule (ruled out by `validSchedule`) the remaining stages are
skipped. -/
def runCluster :
    List (Op ρ) → List (List Nat) → PartitionSet (Option ρ) → PartitionSet (Option ρ)
  | [], _, ps => ps
  | op :: ops, σ :: σs, ps => runCluster ops σs (materializeWith (applyOp op ps) σ)
  | _ :: _, [], ps => ps

/-- A cluster completion schedule is valid when it has one completion order per
stage and each is a permutation of that stage's partition indexes. -/
def validSchedule :
    List (Op ρ) → List (List Nat) → PartitionSet (Option ρ) → Bool
  | [], _, _ => true
  | op :: ops, σ :: σs, ps =>
      decide (σ.Perm (List.range (applyOp op ps).length)) &&
        validSchedule ops σs (applyOp op ps)
  | _ :: _, [], _ => false

/-- A demonstration operation chain used by concrete witnesses: Limit(3), then
Repartition(2), then `udfDemo` — the notebook's limit/repartition/UDF shape. -/
def opsDemo : List (Op Nat) :=
  [Op.limitOp 3, Op.repartitionOp 2, Op.udfOp udfDemo]

/-- A demonstration input PartitionSet used by concrete witnesses. -/
def inputDemo : PartitionSet (Option Nat) :=
  [[some 1, none], [some 3, some 4]]

/-- A demonstration out-of-order cluster completion schedule for `opsDemo` on
`inputDemo`: the first two stages complete in reverse partition order. -/
def schedDemo : List (List Nat) :=
  [[1, 0], [1, 0], [0, 1]]

theorem splitInto_length (n : Nat) (rows : List α) :
    (splitInto n rows).length = n := by
  induction n generalizing rows with
  | zero => simp [splitInto]
  | succ m ih => simp [splitInto, ih]

theorem splitInto_sum (n : Nat) (rows : List α) :
    ((splitInto n rows).map List.length).sum = if n = 0 then 0 else rows.length := by
  induction n generalizing rows with
  | zero => simp [splitInto]
  | succ m ih =>
      simp only [splitInto, List.map_cons, List.sum_cons, ih]
      rcases Nat.eq_zero_or_pos m with hm | hm
      · subst hm
        simp
      · have : m ≠ 0 := Nat.pos_iff_ne_zero.mp hm
        simp only [this, if_false, if_neg (Nat.succ_ne_zero m)]
        simp [List.length_take, List.length_drop]
        omega

theorem splitInto_nil (n : Nat) :
    splitInto n ([] : List α) = List.replicate n [] := by
  induction n with
  | zero => simp [splitInto]
  | succ m ih => simp [splitInto, ih, List.replicate_succ]

/-- C1: for every PartitionSet and every n ≥ 1, Repartition(n) produces exactly n
output partitions whose row counts sum to the input's total row count, and on an
empty PartitionSet it yields n empty partitions. -/
theorem repartition_count_preserved (ps ps₀ : PartitionSet α) (n : Nat)
    (hn : 1 ≤ n) (h₀ : totalRows ps₀ = 0) :
    (repartition ps n).length = n ∧
    totalRows (repartition ps n) = totalRows ps ∧
    repartition ps₀ n = List.replicate n ([] : Partition α) := by
  have hjoin : ∀ qs : PartitionSet α, (snapshot qs).length = totalRows qs := by
    intro qs
    simp [snapshot, totalRows, List.length_flatten]
  refine ⟨splitInto_length n (snapshot ps), ?_, ?_⟩
  · have := splitInto_sum n (snapshot ps)
    have hne : n ≠ 0 := by omega
    simp only [hne, if_false] at this
    simpa [repartition, totalRows, hjoin ps] using this
  · have hnil : snapshot ps₀ = [] := by
      have := hjoin ps₀
      rw [h₀] at this
      exact List.eq_nil_of_length_eq_zero this
    simp [repartition, hnil, splitInto_nil]

/-- Witness for C1 at a concrete input: 2 partitions holding 3 rows repartitioned
into 2, and an all-empty PartitionSet repartitioned into 2 empty partitions. -/
theorem repartition_count_preserved_witness :
    (repartition [[1, 2], [3]] 2).length = 2 ∧
    totalRows (repartition [[1, 2], [3]] 2) = totalRows [[1, 2], [3]] ∧
    repartition ([[], []] : PartitionSet Nat) 2 = List.replicate 2 [] :=
  repartition_count_preserved [[1, 2], [3]] [[], []] 2 (by decide) (by decide)

theorem limitTasks_flatten (k : Nat) (ps : PartitionSet α) :
    snapshot (limitTasks k ps) = (snapshot ps).take k := by
  induction ps generalizing k with
  | nil => simp [limitTasks, snapshot]
  | cons p rest ih =>
      match k with
      | 0 => simp [limitTasks, snapshot]
      | k + 1 =>
          by_cases h : k + 1 ≤ p.length
          · simp only [limitTasks, if_pos h, snapshot, List.flatten_cons, List.flatten_nil,
              List.append_nil, List.flatten]
            rw [List.take_append_eq_append_take]
            have hz : k + 1 - p.length = 0 := by omega
            simp [hz]
          · simp only [limitTasks, if_neg h, snapshot, List.flatten_cons] at ih ⊢
            rw [ih, List.take_append_eq_append_take]
            have hp : p.take (k + 1) = p := List.take_of_length_le (by omega)
            rw [hp]

theorem limitTasks_stops (k j : Nat) (ps : PartitionSet α)
    (hj : k ≤ totalRows (ps.take j)) : (limitTasks k ps).length ≤ j := by
  induction ps generalizing k j with
  | nil => simp [limitTasks]
  | cons p rest ih =>
      match k with
      | 0 => simp [limitTasks]
      | k + 1 =>
          match j with
          | 0 =>
              exfalso
              simp [totalRows] at hj
          | j + 1 =>
              simp only [List.take_succ_cons, totalRows, List.map_cons, List.sum_cons] at hj
              by_cases h : k + 1 ≤ p.length
              · simp only [limitTasks, if_pos h, List.length_singleton]
                omega
              · simp only [limitTasks, if_neg h, List.length_cons]
                have : (limitTasks (k + 1 - p.length) rest).length ≤ j :=
                  ih (k + 1 - p.length) j (by simp only [totalRows]; omega)
                omega

/-- C2: Limit(k) materializes exactly min(k, total rows) rows, as the prefix of the
input's row-major snapshot (original row order); task generation is lazy: for any j,
either no more than j tasks are created or the first j partitions hold fewer than k
rows; and in the spec's scenario, Limit(15) on 8 partitions of 20 rows creates a
single task holding the first 15 rows of partition 0. -/
theorem limit_min_rows_lazy (k j : Nat) (ps : PartitionSet α) :
    snapshot (limitTasks k ps) = (snapshot ps).take k ∧
    (snapshot (limitTasks k ps)).length = min k (totalRows ps) ∧
    ((limitTasks k ps).length ≤ j ∨ totalRows (ps.take j) < k) ∧
    limitTasks 15 (List.replicate 8 (List.replicate 20 (0 : Nat))) =
      [List.replicate 15 0] := by
  have hflat : (snapshot ps).length = totalRows ps := by
    simp [snapshot, totalRows, List.length_flatten]
  refine ⟨limitTasks_flatten k ps, ?_, ?_, by decide⟩
  · rw [limitTasks_flatten k ps, List.length_take, hflat]
  · by_cases hj : k ≤ totalRows (ps.take j)
    · exact Or.inl (limitTasks_stops k j ps hj)
    · exact Or.inr (by omega)

theorem udfCalls_reduceOption (f : α → Except ε β) (p : List (Option α)) :
    udfCalls f p = p.reduceOption := by
  induction p with
  | nil => simp [udfCalls, udfApplyTrace, List.reduceOption]
  | cons r rest ih =>
      match r with
      | none => simpa [udfCalls, udfApplyTrace, List.reduceOption] using ih
      | some a => simpa [udfCalls, udfApplyTrace, List.reduceOption] using ih

theorem udfApplyTrace_fst (f : α → Except ε β) (p : List (Option α)) :
    (udfApplyTrace f p).1 = udfApply f p := by
  induction p with
  | nil => simp [udfApplyTrace, udfApply]
  | cons r rest ih =>
      match r with
      | none => simpa [udfApplyTrace, udfApply, udfApplyRow] using ih
      | some a => simpa [udfApplyTrace, udfApply] using ih

/-- C3: per-row UDF failure policy.  A present row on which the user function raises
produces an absent output cell while the task still completes with a full-length
output (remaining rows continue); an absent input row yields an absent output; and
the inputs passed to the user function are exactly the present cells, so an absent
input is never passed to the function.  The traced execution agrees with the pure
one. -/
theorem udf_row_failure_absorbed (f : α → Except ε β) (p : List (Option α))
    (i j : Nat) (a : α) (e : ε)
    (ha : p[i]? = some (some a)) (he : f a = Except.error e)
    (hj : p[j]? = some none) :
    (udfApply f p).length = p.length ∧
    (udfApply f p)[i]? = some none ∧
    (udfApply f p)[j]? = some none ∧
    udfCalls f p = p.reduceOption ∧
    (udfApplyTrace f p).1 = udfApply f p := by
  refine ⟨List.length_map p (udfApplyRow f), ?_, ?_, udfCalls_reduceOption f p,
    udfApplyTrace_fst f p⟩
  · rw [udfApply, List.getElem?_map, ha]
    simp [udfApplyRow, he]
  · rw [udfApply, List.getElem?_map, hj]
    simp [udfApplyRow]

/-- Witness for C3 on the demonstration partition: row 2 holds `some 3`, on which
`udfDemo` raises; row 1 is absent. -/
theorem udf_row_failure_absorbed_witness :
    (udfApply udfDemo partDemo).length = partDemo.length ∧
    (udfApply udfDemo partDemo)[2]? = some none ∧
    (udfApply udfDemo partDemo)[1]? = some none ∧
    udfCalls udfDemo partDemo = partDemo.reduceOption ∧
    (udfApplyTrace udfDemo partDemo).1 = udfApply udfDemo partDemo :=
  udf_row_failure_absorbed udfDemo partDemo 2 1 3 () rfl rfl rfl

/-- C6: UDFApply over a PartitionSet keeps the partition count, keeps every
partition's row count, maps each input partition to the UDF applied to it, and maps
an absent input row to an absent output row at the same position. -/
theorem udf_shape_preserved (f : α → Except ε β) (ps : PartitionSet (Option α))
    (k i : Nat) (part : List (Option α))
    (hk : ps[k]? = some part) (hi : part[i]? = some none) :
    (udfApplySet f ps).length = ps.length ∧
    (udfApplySet f ps).map List.length = ps.map List.length ∧
    (udfApplySet f ps)[k]? = some (udfApply f part) ∧
    (udfApply f part)[i]? = some none := by
  refine ⟨List.length_map ps (udfApply f), ?_, ?_, ?_⟩
  · rw [udfApplySet, List.map_map]
    apply List.map_congr_left
    intro q _
    simp [Function.comp, udfApply]
  · rw [udfApplySet, List.getElem?_map, hk]
    rfl
  · rw [udfApply, List.getElem?_map, hi]
    rfl

/-- Witness for C6 on a two-partition set whose partition 1 is the demonstration
partition, with its absent row at position 1. -/
theorem udf_shape_preserved_witness :
    (udfApplySet udfDemo [[some 5], partDemo]).length = ([[some 5], partDemo]).length ∧
    (udfApplySet udfDemo [[some 5], partDemo]).map List.length =
      ([[some 5], partDemo]).map List.length ∧
    (udfApplySet udfDemo [[some 5], partDemo])[1]? = some (udfApply udfDemo partDemo) ∧
    (udfApply udfDemo partDemo)[1]? = some none :=
  udf_shape_preserved udfDemo [[some 5], partDemo] 1 1 partDemo rfl rfl

/-- C10: the notebook's `to_image` UDF is total at the batch level: whatever the
decoder does, it returns normally with a list — every per-element decode error is
caught and replaced by the absent marker, so no exception escapes the loop — and the
returned list applies the engine's per-row policy to each element, in particular
having one output per input element. -/
theorem to_image_total (decode : β → Except ε γ) (col : List (Option β)) :
    to_image decode col = Except.ok (udfApply decode col) ∧
    (udfApply decode col).length = col.length := by
  refine ⟨?_, List.length_map col (udfApplyRow decode)⟩
  induction col with
  | nil => simp [to_image, udfApply]
  | cons b rest ih =>
      match b with
      | none =>
          simp [to_image, ih, Except.map, udfApply, udfApplyRow]
      | some bb =>
          rcases hd : decode bb with im | er
          all_goals
            simp [to_image, hd, ih, Except.map, udfApply, udfApplyRow]

/-- C5: once the Execution Context is bound (first use), every reconfiguration
attempt fails with ConfigError, the existing binding is unchanged, and ConfigError
is not a retryable error kind. -/
theorem context_binding_immutable (ctx : ExecContext) (cfg b : RunnerConfig)
    (h : ctx.binding = some b) :
    trySetRunner ctx cfg = (some EngineError.configError, ctx) ∧
    (trySetRunner ctx cfg).2.binding = some b ∧
    isRetryable EngineError.configError = false := by
  have hstep : trySetRunner ctx cfg = (some EngineError.configError, ctx) := by
    cases ctx with
    | mk bnd =>
        cases bnd with
        | none => simp at h
        | some c => simp [trySetRunner]
  exact ⟨hstep, by rw [hstep, h], rfl⟩

/-- Witness for C5: a context already bound to the PyRunner rejects a switch to the
RayRunner with a bigger pool, keeping the old binding. -/
theorem context_binding_immutable_witness :
    trySetRunner (ExecContext.mk (some (RunnerConfig.mk BackendKind.pyRunner none 1)))
        (RunnerConfig.mk BackendKind.rayRunner (some 9) 4) =
      (some EngineError.configError,
        ExecContext.mk (some (RunnerConfig.mk BackendKind.pyRunner none 1))) ∧
    (trySetRunner (ExecContext.mk (some (RunnerConfig.mk BackendKind.pyRunner none 1)))
        (RunnerConfig.mk BackendKind.rayRunner (some 9) 4)).2.binding =
      some (RunnerConfig.mk BackendKind.pyRunner none 1) ∧
    isRetryable EngineError.configError = false :=
  context_binding_immutable
    (ExecContext.mk (some (RunnerConfig.mk BackendKind.pyRunner none 1)))
    (RunnerConfig.mk BackendKind.rayRunner (some 9) 4)
    (RunnerConfig.mk BackendKind.pyRunner none 1) rfl

theorem runWithRetry_all_fail (e : Nat → Except ε π) :
    ∀ fuel k, (∀ i, i ≤ fuel → exceptOk (e (k + i)) = false) →
      runWithRetry e k fuel = e (k + fuel) := by
  intro fuel
  induction fuel with
  | zero =>
      intro k _
      simp [runWithRetry]
  | succ m ih =>
      intro k h
      have h0 : exceptOk (e k) = false := by simpa using h 0 (Nat.zero_le _)
      rcases hk : e k with er | q
      · simp only [runWithRetry, hk]
        have := ih (k + 1) (fun i hi => by
          have := h (i + 1) (by omega)
          simpa [Nat.add_assoc, Nat.add_comm 1 i] using this)
        rw [this]
        congr 1
        omega
      · rw [hk] at h0
        simp [exceptOk] at h0

theorem runWithRetry_first_success (e : Nat → Except ε π) (p : π) :
    ∀ fuel k j, j ≤ fuel → (∀ i, i < j → exceptOk (e (k + i)) = false) →
      e (k + j) = Except.ok p → runWithRetry e k fuel = Except.ok p := by
  intro fuel
  induction fuel with
  | zero =>
      intro k j hj _ hok
      have : j = 0 := by omega
      subst this
      simpa [runWithRetry] using hok
  | succ m ih =>
      intro k j hj hfail hok
      match j with
      | 0 =>
          simp only [Nat.add_zero] at hok
          simp [runWithRetry, hok]
      | j + 1 =>
          have h0 : exceptOk (e k) = false := by simpa using hfail 0 (by omega)
          rcases hk : e k with er | q
          · simp only [runWithRetry, hk]
            exact ih (k + 1) j (by omega)
              (fun i hi => by
                have := hfail (i + 1) (by omega)
                simpa [Nat.add_assoc, Nat.add_comm 1 i] using this)
              (by
                have harith : k + 1 + j = k + (j + 1) := by omega
                rw [harith, hok])
          · rw [hk] at h0
            simp [exceptOk] at h0

/-- C8: a task whose every attempt up to the retry bound fails aborts the whole
task graph with that task's single final error — no partial PartitionSet is
returned — while a task whose j-th attempt (j within the bound) succeeds is
retried transparently to success; task errors are the retryable kind. -/
theorem task_retry_bound_aborts (e e₂ : Nat → Except ε π)
    (rest : List (Nat → Except ε π)) (bound j : Nat) (p : π) (er : ε)
    (hfail : failBefore e (bound + 1) = true)
    (her : e bound = Except.error er)
    (hj : j ≤ bound) (hbef : failBefore e₂ j = true)
    (hok : e₂ j = Except.ok p) :
    runWithRetry e 0 bound = Except.error er ∧
    runGraph bound (e :: rest) = Except.error er ∧
    runWithRetry e₂ 0 bound = Except.ok p ∧
    isRetryable EngineError.taskError = true := by
  simp only [failBefore, List.all_eq_true, List.mem_range, Bool.not_eq_true',
    decide_eq_true_eq] at hfail hbef
  have h1 : runWithRetry e 0 bound = Except.error er := by
    have := runWithRetry_all_fail e bound 0
      (fun i hi => by simpa using hfail i (by omega))
    simpa [her] using this
  have h3 : runWithRetry e₂ 0 bound = Except.ok p :=
    runWithRetry_first_success e₂ p bound 0 j hj
      (fun i hi => by simpa using hbef i hi) (by simpa using hok)
  exact ⟨h1, by simp [runGraph, h1], h3, rfl⟩

/-- Witness for C8: a task failing on all three attempts with retry bound 2 aborts
the graph; a task failing once then succeeding with 7 is retried to success. -/
theorem task_retry_bound_aborts_witness :
    runWithRetry (fun _ => (Except.error () : Except Unit Nat)) 0 2 =
      Except.error () ∧
    runGraph 2 [fun _ => (Except.error () : Except Unit Nat)] = Except.error () ∧
    runWithRetry (fun k => if k = 0 then Except.error () else Except.ok 7) 0 2 =
      Except.ok 7 ∧
    isRetryable EngineError.taskError = true :=
  task_retry_bound_aborts (fun _ => Except.error ())
    (fun k => if k = 0 then Except.error () else Except.ok 7) [] 2 1 7 ()
    (by decide) rfl (by decide) (by decide) rfl

theorem schedReach_slot_conservation (cpus tasks : Nat) (s : SchedState)
    (h : SchedReach (initSched cpus tasks) s) : s.free + s.running = cpus := by
  induction h with
  | refl => simp [initSched]
  | step t u _ hstep ih =>
      cases hstep with
      | grant f r q =>
          have ih' : f + 1 + r = cpus := ih
          show f + (r + 1) = cpus
          omega
      | release f r q =>
          have ih' : f + (r + 1) = cpus := ih
          show f + 1 + r = cpus
          omega

/-- C9: with a pool of `cpus` 1-CPU slots and any number of independent 1-CPU
tasks, every state reachable by any interleaving of atomic grant/release
transitions has at most `cpus` tasks running, and free plus running capacity is
exactly the pool size (no over- or under-counting). -/
theorem concurrency_bounded (cpus tasks : Nat) (s : SchedState)
    (h : SchedReach (initSched cpus tasks) s) :
    s.running ≤ cpus ∧ s.free + s.running = cpus := by
  have := schedReach_slot_conservation cpus tasks s h
  exact ⟨by omega, this⟩

/-- Witness for C9: with 2 CPUs and 3 pending download tasks, after two grants
both slots are busy and exactly 2 tasks run concurrently. -/
theorem concurrency_bounded_witness :
    (SchedState.mk 0 2 1).running ≤ 2 ∧
    (SchedState.mk 0 2 1).free + (SchedState.mk 0 2 1).running = 2 :=
  concurrency_bounded 2 3 (SchedState.mk 0 2 1)
    (SchedReach.step (initSched 2 3) (SchedState.mk 1 1 2) (SchedState.mk 0 2 1)
      (SchedReach.step (initSched 2 3) (initSched 2 3) (SchedState.mk 1 1 2)
        (SchedReach.refl (initSched 2 3)) (SchedStep.grant 1 0 2))
      (SchedStep.grant 0 1 1))

theorem lookup_completionsOf (parts : PartitionSet α) (σ : List Nat) (i : Nat)
    (h : i ∈ σ) :
    (completionsOf parts σ).lookup i = some (parts.getD i []) := by
  induction σ with
  | nil => simp at h
  | cons j rest ih =>
      simp only [completionsOf, List.map_cons, List.lookup]
      by_cases hij : i = j
      · subst hij
        simp
      · have hb : (i == j) = false := by simp [hij]
        rw [hb]
        have hm : i ∈ rest := by
          rcases List.mem_cons.mp h with heq | hm
          · exact absurd heq hij
          · exact hm
        simpa [completionsOf] using ih hm

theorem range_map_getD (l : List α) (d : α) :
    (List.range l.length).map (fun i => l.getD i d) = l := by
  induction l with
  | nil => simp
  | cons a t ih =>
      rw [List.length_cons, List.range_succ_eq_map, List.map_cons, List.map_map]
      have hcomp : ∀ i ∈ List.range t.length,
          ((fun i => (a :: t).getD i d) ∘ Nat.succ) i = t.getD i d := by
        intro i _
        simp [Function.comp]
      rw [List.map_congr_left hcomp, ih]
      rfl

theorem materializeWith_perm (parts : PartitionSet α) (σ : List Nat)
    (h : σ.Perm (List.range parts.length)) :
    materializeWith parts σ = parts := by
  unfold materializeWith materializeByIndex
  have hmem : ∀ i ∈ List.range parts.length, i ∈ σ := fun i hi => h.mem_iff.mpr hi
  rw [List.map_congr_left (fun i hi => by
    rw [lookup_completionsOf parts σ i (hmem i hi)])]
  exact range_map_getD parts []

/-- C7: the Materializer assembles the target PartitionSet in partition-index order
for every completion order (a permutation of the partition indexes), so out-of-order
completion never reorders data; consequently any two completion orders of identical
partition contents yield identical row-major snapshots. -/
theorem materializer_index_order (parts : PartitionSet α) (σ₁ σ₂ : List Nat)
    (h₁ : σ₁.Perm (List.range parts.length))
    (h₂ : σ₂.Perm (List.range parts.length)) :
    materializeWith parts σ₁ = parts ∧
    materializeWith parts σ₂ = parts ∧
    snapshot (materializeWith parts σ₁) = snapshot (materializeWith parts σ₂) := by
  have m1 := materializeWith_perm parts σ₁ h₁
  have m2 := materializeWith_perm parts σ₂ h₂
  exact ⟨m1, m2, by rw [m1, m2]⟩

/-- Witness for C7: three partitions completing in two different out-of-order
interleavings are both reassembled in index order, with equal snapshots. -/
theorem materializer_index_order_witness :
    materializeWith [[1], [2, 3], [4]] [2, 0, 1] = [[1], [2, 3], [4]] ∧
    materializeWith [[1], [2, 3], [4]] [1, 2, 0] = [[1], [2, 3], [4]] ∧
    snapshot (materializeWith [[1], [2, 3], [4]] [2, 0, 1]) =
      snapshot (materializeWith [[1], [2, 3], [4]] [1, 2, 0]) :=
  materializer_index_order [[1], [2, 3], [4]] [2, 0, 1] [1, 2, 0]
    (by decide) (by decide)

theorem runCluster_eq_runLocal (g : List (Op ρ)) (σs : List (List Nat))
    (input : PartitionSet (Option ρ))
    (h : validSchedule g σs input = true) :
    runCluster g σs input = runLocal g input := by
  induction g generalizing σs input with
  | nil => cases σs <;> simp [runCluster, runLocal]
  | cons op ops ih =>
      match σs with
      | [] => simp [validSchedule] at h
      | σ :: σs =>
          simp only [validSchedule, Bool.and_eq_true, decide_eq_true_eq] at h
          obtain ⟨hperm, hrest⟩ := h
          simp only [runCluster, runLocal]
          rw [materializeWith_perm _ _ hperm]
          exact ih σs (applyOp op input) hrest

/-- C4: an operation chain executed through the Cluster backend, under any valid
completion schedule (each stage's completions a permutation of its partition
indexes), produces the same PartitionSet as the Local backend, and in particular the
same final row-major snapshot: backend choice never affects the result. -/
theorem backend_equivalence (g : List (Op ρ)) (σs : List (List Nat))
    (input : PartitionSet (Option ρ))
    (h : validSchedule g σs input = true) :
    runCluster g σs input = runLocal g input ∧
    snapshot (runCluster g σs input) = snapshot (runLocal g input) := by
  have he := runCluster_eq_runLocal g σs input h
  exact ⟨he, by rw [he]⟩

/-- Witness for C4: the demonstration chain (Limit, Repartition, UDF) over the
demonstration input with an out-of-order cluster schedule matches the Local run. -/
theorem backend_equivalence_witness :
    runCluster opsDemo schedDemo inputDemo = runLocal opsDemo inputDemo ∧
    snapshot (runCluster opsDemo schedDemo inputDemo) =
      snapshot (runLocal opsDemo inputDemo) :=
  backend_equivalence opsDemo schedDemo inputDemo (by decide)
